import Mathlib

/-
  Verification of the gophers container library (charbz/gophers).

  The development shallowly embeds the Go sources:
  * list.List (a doubly linked list) is modelled with an explicit node heap,
    because the claims about Dequeue/Pop concern the pointer structure itself;
  * Sequence and the generic algorithm library are modelled at the level of
    the element sequence a well formed container holds, which is exactly what
    Values/All/Backward/ToSlice expose for those claims;
  * functions that allocate result containers through the capability
    interface (Filter, Distinct, Diff, the Set algebra) are additionally
    modelled over an explicit store of collection cells, so that frame
    properties (inputs are not mutated, results are fresh) are meaningful;
  * Go panics and sentinel error values are distinguished by an Outcome type;
  * ambient randomness (rand.Intn) is modelled by an explicit oracle argument.
-/

namespace Gophers

/-- Sentinel error values of the collection package (errors.go). -/
inductive GoError where
  | emptyCollection
  | valueNotFound
  | indexOutOfBounds
deriving DecidableEq

/-- Payload of a Go panic: one of the library's sentinel errors (as in
panic(collection.IndexOutOfBoundsError)) or a Go runtime fault such as a
slice bounds violation or a nil pointer dereference. -/
inductive GoPanic where
  | sentinel (e : GoError)
  | runtime
deriving DecidableEq

/-- Result of a Go call: a normal value, a returned sentinel error, or a panic. -/
inductive Outcome (α : Type) where
  | ok (a : α)
  | errored (e : GoError)
  | panicked (p : GoPanic)
deriving DecidableEq

/-- Node of list.List: a value plus next and prev pointers, modelled as
addresses into a node heap (part_028 lines 25-29). -/
structure LNode (T : Type) where
  value : T
  next : Option Nat
  prev : Option Nat
deriving DecidableEq

/-- State of a list.List: the node heap (addresses are indices, allocation
appends), the head and tail pointers and the size counter (part_028 lines 31-35). -/
structure GoList (T : Type) where
  heap : List (LNode T)
  head : Option Nat
  tail : Option Nat
  size : Int
deriving DecidableEq

/-- The zero value of a list.List, as produced by new(List[T]). -/
def GoList.emptyList {T : Type} : GoList T := ⟨[], none, none, 0⟩

/-- list.List.Add (part_028 lines 54-65): allocate a node; if head is nil the
node becomes head and tail, otherwise it is linked behind the current tail.
Returns none when the Go code would dereference a nil or dangling tail
pointer (l.tail.next = node with l.tail == nil). -/
def GoList.addGo {T : Type} (l : GoList T) (v : T) : Option (GoList T) :=
  let addr := l.heap.length
  match l.head with
  | none => some ⟨l.heap ++ [⟨v, none, none⟩], some addr, some addr, l.size + 1⟩
  | some _ =>
    match l.tail with
    | none => none
    | some t =>
      match l.heap[t]? with
      | none => none
      | some tn =>
        some ⟨(l.heap.set t ⟨tn.value, some addr, tn.prev⟩) ++ [⟨v, none, some t⟩],
              l.head, some addr, l.size + 1⟩

/-- Build a list.List by NewList: starting from the zero list, Add each value
in order (part_028 lines 37-48). -/
def buildGoList {T : Type} (vs : List T) : Option (GoList T) :=
  vs.foldlM GoList.addGo GoList.emptyList

/-- list.List.Dequeue (part_028 lines 231-239): on an empty list return the
zero value and EmptyCollectionError; otherwise return the head value, advance
head to head.next and decrement size.  Nothing else is updated. -/
def GoList.dequeueGo {T : Type} [Inhabited T] (l : GoList T) : Outcome T × GoList T :=
  if l.size = 0 then (Outcome.errored GoError.emptyCollection, l)
  else
    match l.head with
    | none => (Outcome.panicked GoPanic.runtime, l)
    | some h =>
      match l.heap[h]? with
      | none => (Outcome.panicked GoPanic.runtime, l)
      | some hn => (Outcome.ok hn.value, ⟨l.heap, hn.next, l.tail, l.size - 1⟩)

/-- list.List.Pop (part_028 lines 379-387): on an empty list return the zero
value and EmptyCollectionError; otherwise return the tail value, move tail to
tail.prev and decrement size.  Nothing else is updated. -/
def GoList.popGo {T : Type} [Inhabited T] (l : GoList T) : Outcome T × GoList T :=
  if l.size = 0 then (Outcome.errored GoError.emptyCollection, l)
  else
    match l.tail with
    | none => (Outcome.panicked GoPanic.runtime, l)
    | some t =>
      match l.heap[t]? with
      | none => (Outcome.panicked GoPanic.runtime, l)
      | some tn => (Outcome.ok tn.value, ⟨l.heap, l.head, tn.prev, l.size - 1⟩)

/-- Walk a next chain collecting values, as the loop of list.List.Values and
list.List.All does (part_028 lines 86-94 and 112-122).  The walk stops at a
nil pointer; fuel only bounds the recursion and every use instantiates it
with more steps than the heap has nodes. -/
def valuesFrom {T : Type} (h : List (LNode T)) : Nat → Option Nat → List T
  | 0, _ => []
  | _, none => []
  | Nat.succ fuel, some a =>
    match h[a]? with
    | none => []
    | some nd => nd.value :: valuesFrom h fuel nd.next

/-- Values of a list.List in forward order (list.List.Values / All). -/
def GoList.valuesGo {T : Type} (l : GoList T) : List T :=
  valuesFrom l.heap (l.heap.length + 1) l.head

/-- Walk a prev chain collecting values, as the loop of list.List.Backward
does (part_028 lines 125-135). -/
def backwardFrom {T : Type} (h : List (LNode T)) : Nat → Option Nat → List T
  | 0, _ => []
  | _, none => []
  | Nat.succ fuel, some a =>
    match h[a]? with
    | none => []
    | some nd => nd.value :: backwardFrom h fuel nd.prev

/-- Values of a list.List in backward order (list.List.Backward). -/
def GoList.backwardGo {T : Type} (l : GoList T) : List T :=
  backwardFrom l.heap (l.heap.length + 1) l.tail

/-- C1: Dequeue and Pop do return the former head/tail value with a nil
error and decrement Length, but the removed element is NOT gone from the
iterators.  On the list [1, 2]: Pop returns 2, yet the forward iterator
(Values/All, hence ToSlice) still yields [1, 2] because the surviving node
keeps its stale next pointer; Dequeue returns 1, yet the backward iterator
still yields [2, 1] because the surviving node keeps its stale prev pointer.
This contradicts the claim (and the methods' own doc comments, which say the
element is removed). -/
theorem c1_pop_dequeue_leave_removed_element_reachable :
    ∃ l : GoList Nat, buildGoList [1, 2] = some l ∧
      (l.popGo.1 = Outcome.ok 2 ∧ l.popGo.2.size = 1 ∧
        l.popGo.2.valuesGo = [1, 2] ∧ l.popGo.2.backwardGo = [1]) ∧
      (l.dequeueGo.1 = Outcome.ok 1 ∧ l.dequeueGo.2.size = 1 ∧
        l.dequeueGo.2.valuesGo = [2] ∧ l.dequeueGo.2.backwardGo = [2, 1]) := by
  exact ⟨⟨[⟨1, some 1, none⟩, ⟨2, none, some 0⟩], some 0, some 1, 2⟩, by decide⟩

/-- C2: the structural invariant is not preserved by Dequeue and Pop.
Dequeue on the one element list [1] leaves size = 0 and head = nil but a
dangling tail pointer, violating size == 0 iff head == tail == empty; Pop on
[1] leaves a dangling head, and a subsequent Add then dereferences the nil
tail pointer (a Go runtime panic, modelled as none); Pop on [1, 2] leaves
two nodes reachable from head while size is 1. -/
theorem c2_dequeue_pop_break_structural_invariant :
    (∃ l : GoList Nat, buildGoList [1] = some l ∧
      (l.dequeueGo.2.size = 0 ∧ l.dequeueGo.2.head = none ∧
        l.dequeueGo.2.tail = some 0) ∧
      (l.popGo.2.size = 0 ∧ l.popGo.2.tail = none ∧ l.popGo.2.head = some 0 ∧
        l.popGo.2.addGo 5 = none)) ∧
    (∃ l2 : GoList Nat, buildGoList [1, 2] = some l2 ∧
      l2.popGo.2.size = 1 ∧ (l2.popGo.2.valuesGo).length = 2) := by
  constructor
  · exact ⟨⟨[⟨1, none, none⟩], some 0, some 0, 1⟩, by decide⟩
  · exact ⟨⟨[⟨1, some 1, none⟩, ⟨2, none, some 0⟩], some 0, some 1, 2⟩, by decide⟩

/-- Loop of collection.Find / the ordered Find (ordered_functions.go lines
106-113): index of the first element satisfying the predicate, else -1. -/
def findLoop {T : Type} (p : T → Bool) : List T → Int → Int
  | [], _ => -1
  | v :: rest, i => if p v then i else findLoop p rest (i + 1)

/-- collection.Find reduced to its index result, as consumed by Diffed. -/
def goFindIdx {T : Type} (s : List T) (p : T → Bool) : Int :=
  findLoop p s 0

/-- Trace of the yield calls made by collection.Filtered
(iter_functions.go lines 171-179).  The consumer's answer to the k th call
is resp k; the Go loop body discards that answer (it reads yield(v) but
never tests it), so the range loop keeps pulling from the source.  Returns
(elements pulled from the source, values passed to yield). -/
def filteredTrace {T : Type} (f : T → Bool) (resp : Nat → Bool) :
    List T → Nat → List T × List T
  | [], _ => ([], [])
  | v :: rest, k =>
    if f v then
      let _ans := resp k
      let t := filteredTrace f resp rest (k + 1)
      (v :: t.1, v :: t.2)
    else
      let t := filteredTrace f resp rest k
      (v :: t.1, t.2)

/-- One of the two loops of collection.Concatenated (iter_functions.go lines
28-37): every element is passed to yield and the answer is discarded.
Returns the call values plus the updated call counter. -/
def concatLoop {T : Type} (resp : Nat → Bool) : List T → Nat → List T × Nat
  | [], k => ([], k)
  | v :: rest, k =>
    let _ans := resp k
    let t := concatLoop resp rest (k + 1)
    (v :: t.1, t.2)

/-- Trace of the yield calls made by collection.Concatenated: both loops run
to completion regardless of the consumer's answers. -/
def concatTrace {T : Type} (resp : Nat → Bool) (s1 s2 : List T) : List T :=
  let t1 := concatLoop resp s1 0
  let t2 := concatLoop resp s2 t1.2
  t1.1 ++ t2.1

/-- Loop of collection.Diffed (iter_functions.go lines 54-63): yield v when
Find reports no element of s2 equal to it; the answer is discarded. -/
def diffedLoop {T : Type} [DecidableEq T] (s2 : List T) (resp : Nat → Bool) :
    List T → Nat → List T × Nat
  | [], k => ([], k)
  | v :: rest, k =>
    if goFindIdx s2 (fun t => decide (t = v)) = -1 then
      let _ans := resp k
      let t := diffedLoop s2 resp rest (k + 1)
      (v :: t.1, t.2)
    else diffedLoop s2 resp rest k

/-- Trace of the yield calls made by collection.Diffed. -/
def diffedTrace {T : Type} [DecidableEq T] (s1 s2 : List T) (resp : Nat → Bool) : List T :=
  (diffedLoop s2 resp s1 0).1

/-- C3: the lazy iterators are not cancellable.  With a consumer whose very
first answer is false (resp is constantly false), the claim requires at most
one yield call, but Filtered over [1, 2] with an always true predicate still
calls yield twice and pulls both source elements, Concatenated over [1] and
[2] calls yield twice, and Diffed over [1, 2] against the empty collection
calls yield twice: the producers never test the consumer's answer. -/
theorem c3_lazy_iterators_ignore_yield_result :
    (filteredTrace (fun _ => true) (fun _ => false) ([1, 2] : List Nat) 0 = ([1, 2], [1, 2])) ∧
    (concatTrace (fun _ => false) ([1] : List Nat) [2] = [1, 2]) ∧
    (diffedTrace ([1, 2] : List Nat) ([] : List Nat) (fun _ => false) = [1, 2]) := by
  decide

/-- list.List.At (part_028 lines 100-109) over the value sequence of a well
formed list: panic with the IndexOutOfBoundsError sentinel when the index is
negative or at least the size, otherwise the value reached by walking index
steps from the head. -/
def listAtGo {T : Type} [Inhabited T] (l : List T) (i : Int) : Outcome T :=
  if i < 0 ∨ (l.length : Int) ≤ i then
    Outcome.panicked (GoPanic.sentinel GoError.indexOutOfBounds)
  else Outcome.ok (l.getD i.toNat default)

/-- Loop of list.List.Slice (part_028 lines 143-153) with running index i:
skip while i < start, collect while i < end, break once i reaches end. -/
def sliceLoop {T : Type} (start stop : Int) : List T → Int → List T
  | [], _ => []
  | v :: rest, i =>
    if i < start then sliceLoop start stop rest (i + 1)
    else if i < stop then v :: sliceLoop start stop rest (i + 1)
    else []

/-- list.List.Slice (part_028 lines 138-155): explicit bounds check panicking
with the IndexOutOfBoundsError sentinel, then the collecting loop. -/
def listSliceGo {T : Type} (l : List T) (start stop : Int) : Outcome (List T) :=
  if start < 0 ∨ (l.length : Int) < stop ∨ stop < start then
    Outcome.panicked (GoPanic.sentinel GoError.indexOutOfBounds)
  else Outcome.ok (sliceLoop start stop l 0)

/-- Sequence.At (sequence.go lines 72-77): explicit bounds check panicking
with the IndexOutOfBoundsError sentinel, then direct slice indexing. -/
def seqAtGo {T : Type} [Inhabited T] (s : List T) (i : Int) : Outcome T :=
  if i < 0 ∨ (s.length : Int) ≤ i then
    Outcome.panicked (GoPanic.sentinel GoError.indexOutOfBounds)
  else Outcome.ok (s.getD i.toNat default)

/-- Sequence.Slice (sequence.go lines 90-94): the Go slice expression
c.elements[start:stop] with no explicit bounds check.  With a backing array
whose capacity equals its length this succeeds exactly when
0 <= start <= stop <= len and otherwise panics with a Go runtime slice
bounds error, never with the IndexOutOfBoundsError sentinel. -/
def seqSliceGo {T : Type} (s : List T) (start stop : Int) : Outcome (List T) :=
  if 0 ≤ start ∧ start ≤ stop ∧ stop ≤ (s.length : Int) then
    Outcome.ok ((s.take stop.toNat).drop start.toNat)
  else Outcome.panicked GoPanic.runtime

/-- Loop of list.List.SplitAt (part_028 lines 404-410) with running index i:
an element goes left when its index is at most n, right otherwise. -/
def splitAtLoop {T : Type} (n : Int) : List T → Int → List T × List T
  | [], _ => ([], [])
  | v :: rest, i =>
    let p := splitAtLoop n rest (i + 1)
    if i ≤ n then (v :: p.1, p.2) else (p.1, v :: p.2)

/-- list.List.SplitAt (part_028 lines 401-412). -/
def listSplitAtGo {T : Type} (l : List T) (n : Int) : List T × List T :=
  splitAtLoop n l 0

/-- Sequence.SplitAt (sequence.go lines 301-305): the slice expressions
c.elements[:n+1] and c.elements[n+1:], which with capacity equal to length
succeed exactly when 0 <= n+1 <= len and panic with a runtime error
otherwise. -/
def seqSplitAtGo {T : Type} (s : List T) (n : Int) : Outcome (List T × List T) :=
  if 0 ≤ n + 1 ∧ n + 1 ≤ (s.length : Int) then
    Outcome.ok (s.take (n + 1).toNat, s.drop (n + 1).toNat)
  else Outcome.panicked GoPanic.runtime

/-- collection.SplitAt (ordered_functions.go lines 257-259) instantiated at
the List backend: (s.Slice(0, n), s.Slice(n, s.Length())). -/
def splitAtListGeneric {T : Type} (l : List T) (n : Int) :
    Outcome (List T) × Outcome (List T) :=
  (listSliceGo l 0 n, listSliceGo l n (l.length : Int))

/-- collection.SplitAt instantiated at the Sequence backend. -/
def splitAtSeqGeneric {T : Type} (s : List T) (n : Int) :
    Outcome (List T) × Outcome (List T) :=
  (seqSliceGo s 0 n, seqSliceGo s n (s.length : Int))

/-- C4, counterexample: on the list [1, 2, 3] with n = 1 the SplitAt method
returns ([1, 2], [3]) while the shared generic SplitAt(s, 1) returns
([1], [2, 3]); the Sequence method agrees with the List method, so neither
method computes (Slice(0, n), Slice(n, Length)). -/
theorem c4_splitat_method_differs_from_generic :
    listSplitAtGo ([1, 2, 3] : List Nat) 1 = ([1, 2], [3]) ∧
    splitAtListGeneric ([1, 2, 3] : List Nat) 1 = (Outcome.ok [1], Outcome.ok [2, 3]) ∧
    seqSplitAtGo ([1, 2, 3] : List Nat) 1 = Outcome.ok ([1, 2], [3]) ∧
    (([1, 2], [3]) : List Nat × List Nat) ≠ ([1], [2, 3]) := by
  decide

/-- C6, counterexample: Sequence.Slice performs no explicit bounds check, so
an invalid range such as start = 2, stop = 1 on the one element sequence [1]
panics with a Go runtime slice bounds error whose payload is not the
IndexOutOfBoundsError sentinel (List.Slice panics with the sentinel on the
same input). -/
theorem c6_sequence_slice_panics_without_sentinel :
    seqSliceGo ([1] : List Nat) 2 1 = Outcome.panicked GoPanic.runtime ∧
    listSliceGo ([1] : List Nat) 2 1 =
      Outcome.panicked (GoPanic.sentinel GoError.indexOutOfBounds) ∧
    GoPanic.runtime ≠ GoPanic.sentinel GoError.indexOutOfBounds := by
  decide

/-- The Slice loop collects exactly the elements whose running index lies in
the half open window [start, stop). -/
theorem sliceLoop_take_drop {T : Type} (s e : Int) (hse : s ≤ e) :
    ∀ (l : List T) (i : Int),
      sliceLoop s e l i = (l.take (e - i).toNat).drop (s - i).toNat := by
  intro l
  induction l with
  | nil => intro i; simp [sliceLoop]
  | cons v rest ih =>
    intro i
    by_cases h1 : i < s
    · have he : (e - i).toNat = (e - (i + 1)).toNat + 1 := by omega
      have hs : (s - i).toNat = (s - (i + 1)).toNat + 1 := by omega
      simp only [sliceLoop, if_pos h1, he, hs, List.take_succ_cons, List.drop_succ_cons]
      exact ih (i + 1)
    · by_cases h2 : i < e
      · have he : (e - i).toNat = (e - (i + 1)).toNat + 1 := by omega
        have hs0 : (s - i).toNat = 0 := by omega
        have hs1 : (s - (i + 1)).toNat = 0 := by omega
        simp only [sliceLoop, if_neg h1, if_pos h2, he, hs0, List.take_succ_cons,
          List.drop_zero]
        rw [ih (i + 1), hs1, List.drop_zero]
      · have he : (e - i).toNat = 0 := by omega
        simp only [sliceLoop, if_neg h1, if_neg h2, he, List.take_zero, List.drop_nil]

/-- list.List.Slice on valid bounds returns the elements of [start, stop). -/
theorem listSliceGo_ok {T : Type} (l : List T) (start stop : Int)
    (h0 : 0 ≤ start) (h1 : start ≤ stop) (h2 : stop ≤ (l.length : Int)) :
    listSliceGo l start stop = Outcome.ok ((l.take stop.toNat).drop start.toNat) := by
  have hg : ¬(start < 0 ∨ (l.length : Int) < stop ∨ stop < start) := by omega
  rw [listSliceGo, if_neg hg, sliceLoop_take_drop start stop h1 l 0]
  simp

/-- The SplitAt loop of list.List puts the first n + 1 elements left and the
rest right (indices at most n go left). -/
theorem splitAtLoop_take_drop {T : Type} (n : Int) :
    ∀ (l : List T) (i : Int),
      splitAtLoop n l i = (l.take (n - i + 1).toNat, l.drop (n - i + 1).toNat) := by
  intro l
  induction l with
  | nil => intro i; simp [splitAtLoop]
  | cons v rest ih =>
    intro i
    by_cases h1 : i ≤ n
    · have hk : (n - i + 1).toNat = (n - (i + 1) + 1).toNat + 1 := by omega
      simp only [splitAtLoop, if_pos h1, ih (i + 1), hk, List.take_succ_cons,
        List.drop_succ_cons]
    · have hk : (n - i + 1).toNat = 0 := by omega
      have hk1 : (n - (i + 1) + 1).toNat = 0 := by omega
      simp only [splitAtLoop, if_neg h1, ih (i + 1), hk, hk1, List.take_zero,
        List.drop_zero]

/-- C4, amended: the SplitAt methods of List and Sequence split after index
n rather than before it.  For 0 <= n < Length both methods return the first
n + 1 elements paired with the rest, which is the pair the shared generic
algorithm produces at n + 1, i.e. (Slice(0, n+1), Slice(n+1, Length)) - not
the claimed (Slice(0, n), Slice(n, Length)). -/
theorem c4_amended_splitat_methods_split_after_n {T : Type} (l : List T) (n : Int)
    (h0 : 0 ≤ n) (h1 : n < (l.length : Int)) :
    listSplitAtGo l n = (l.take (n.toNat + 1), l.drop (n.toNat + 1)) ∧
    splitAtListGeneric l (n + 1) =
      (Outcome.ok (l.take (n.toNat + 1)), Outcome.ok (l.drop (n.toNat + 1))) ∧
    seqSplitAtGo l n = Outcome.ok (l.take (n.toNat + 1), l.drop (n.toNat + 1)) ∧
    splitAtSeqGeneric l (n + 1) =
      (Outcome.ok (l.take (n.toNat + 1)), Outcome.ok (l.drop (n.toNat + 1))) := by
  have hn1 : (n + 1).toNat = n.toNat + 1 := by omega
  refine ⟨?_, ?_, ?_, ?_⟩
  · rw [listSplitAtGo, splitAtLoop_take_drop n l 0]
    simp [hn1]
  · rw [splitAtListGeneric,
      listSliceGo_ok l 0 (n + 1) le_rfl (by omega) (by omega),
      listSliceGo_ok l (n + 1) (l.length : Int) (by omega) (by omega) le_rfl]
    simp [hn1]
  · rw [seqSplitAtGo, if_pos ⟨by omega, by omega⟩, hn1]
  · rw [splitAtSeqGeneric, seqSliceGo, if_pos ⟨le_rfl, by omega, by omega⟩,
      seqSliceGo, if_pos ⟨by omega, by omega, le_rfl⟩]
    simp [hn1]

/-- Witness for c4_amended_splitat_methods_split_after_n at l = [10, 20],
n = 0: the hypotheses hold and the List method returns ([10], [20]). -/
theorem c4_amended_witness :
    ((0 : Int) ≤ 0 ∧ (0 : Int) < (([10, 20] : List Nat).length : Int)) ∧
    listSplitAtGo ([10, 20] : List Nat) 0 = ([10], [20]) := by
  refine ⟨⟨by decide, by decide⟩, ?_⟩
  exact (c4_amended_splitat_methods_split_after_n ([10, 20] : List Nat) 0
    (by decide) (by decide)).1.trans (by decide)

/-- Sequence.Slice on valid bounds (capacity = length) returns the elements
of [start, stop). -/
theorem seqSliceGo_ok {T : Type} (s : List T) (start stop : Int)
    (h0 : 0 ≤ start) (h1 : start ≤ stop) (h2 : stop ≤ (s.length : Int)) :
    seqSliceGo s start stop = Outcome.ok ((s.take stop.toNat).drop start.toNat) := by
  rw [seqSliceGo, if_pos ⟨h0, h1, h2⟩]

/-- collection.Take (ordered_functions.go lines 288-293) at the List
backend: empty result for n <= 0, otherwise Slice(0, min(n, Length)). -/
def takeListGo {T : Type} (l : List T) (n : Int) : Outcome (List T) :=
  if n ≤ 0 then Outcome.ok []
  else listSliceGo l 0 (min n (l.length : Int))

/-- collection.Drop (ordered_functions.go lines 43-50) at the List backend:
the collection itself for n <= 0, empty for n >= Length, otherwise
Slice(n, Length). -/
def dropListGo {T : Type} (l : List T) (n : Int) : Outcome (List T) :=
  if n ≤ 0 then Outcome.ok l
  else if (l.length : Int) ≤ n then Outcome.ok []
  else listSliceGo l n (l.length : Int)

/-- collection.Take at the Sequence backend. -/
def takeSeqGo {T : Type} (s : List T) (n : Int) : Outcome (List T) :=
  if n ≤ 0 then Outcome.ok []
  else seqSliceGo s 0 (min n (s.length : Int))

/-- collection.Drop at the Sequence backend. -/
def dropSeqGo {T : Type} (s : List T) (n : Int) : Outcome (List T) :=
  if n ≤ 0 then Outcome.ok s
  else if (s.length : Int) ≤ n then Outcome.ok []
  else seqSliceGo s n (s.length : Int)

/-- C8: for 0 <= n <= Length, Take(C, n) followed by Drop(C, n) decomposes
the collection: the concatenation of their element sequences is the element
sequence of C, on both the List and the Sequence backend. -/
theorem c8_take_drop_concatenation {T : Type} (l : List T) (n : Int)
    (h0 : 0 ≤ n) (h1 : n ≤ (l.length : Int)) :
    (∃ a b, takeListGo l n = Outcome.ok a ∧ dropListGo l n = Outcome.ok b ∧
      a ++ b = l) ∧
    (∃ a b, takeSeqGo l n = Outcome.ok a ∧ dropSeqGo l n = Outcome.ok b ∧
      a ++ b = l) := by
  have hlen : ((l.length : Int)).toNat = l.length := by omega
  by_cases hn : n ≤ 0
  · have h00 : n = 0 := le_antisymm hn h0
    subst h00
    exact ⟨⟨[], l, by rw [takeListGo, if_pos le_rfl], by rw [dropListGo, if_pos le_rfl], rfl⟩,
      ⟨[], l, by rw [takeSeqGo, if_pos le_rfl], by rw [dropSeqGo, if_pos le_rfl], rfl⟩⟩
  · have hmin : min n (l.length : Int) = n := min_eq_left h1
    have htake : (l.take n.toNat).drop (0 : Int).toNat = l.take n.toNat := by simp
    by_cases hge : (l.length : Int) ≤ n
    · have hnl : n = (l.length : Int) := le_antisymm h1 hge
      have hfull : l.take n.toNat = l := by
        rw [hnl, hlen, List.take_length]
      refine ⟨⟨l.take n.toNat, [], ?_, ?_, by rw [hfull, List.append_nil]⟩,
        ⟨l.take n.toNat, [], ?_, ?_, by rw [hfull, List.append_nil]⟩⟩
      · rw [takeListGo, if_neg hn, hmin,
          listSliceGo_ok l 0 n le_rfl (by omega) h1, htake]
      · rw [dropListGo, if_neg hn, if_pos hge]
      · rw [takeSeqGo, if_neg hn, hmin,
          seqSliceGo_ok l 0 n le_rfl (by omega) h1, htake]
      · rw [dropSeqGo, if_neg hn, if_pos hge]
    · have hdrop : (l.take ((l.length : Int)).toNat).drop n.toNat = l.drop n.toNat := by
        rw [hlen, List.take_length]
      refine ⟨⟨l.take n.toNat, l.drop n.toNat, ?_, ?_, List.take_append_drop _ l⟩,
        ⟨l.take n.toNat, l.drop n.toNat, ?_, ?_, List.take_append_drop _ l⟩⟩
      · rw [takeListGo, if_neg hn, hmin,
          listSliceGo_ok l 0 n le_rfl (by omega) h1, htake]
      · rw [dropListGo, if_neg hn, if_neg hge,
          listSliceGo_ok l n (l.length : Int) (by omega) (by omega) le_rfl, hdrop]
      · rw [takeSeqGo, if_neg hn, hmin,
          seqSliceGo_ok l 0 n le_rfl (by omega) h1, htake]
      · rw [dropSeqGo, if_neg hn, if_neg hge,
          seqSliceGo_ok l n (l.length : Int) (by omega) (by omega) le_rfl, hdrop]

/-- Witness for c8_take_drop_concatenation at l = [1, 2, 3], n = 2. -/
theorem c8_witness :
    ((0 : Int) ≤ 2 ∧ (2 : Int) ≤ (([1, 2, 3] : List Nat).length : Int)) ∧
    ((∃ a b, takeListGo ([1, 2, 3] : List Nat) 2 = Outcome.ok a ∧
        dropListGo ([1, 2, 3] : List Nat) 2 = Outcome.ok b ∧ a ++ b = [1, 2, 3]) ∧
      (∃ a b, takeSeqGo ([1, 2, 3] : List Nat) 2 = Outcome.ok a ∧
        dropSeqGo ([1, 2, 3] : List Nat) 2 = Outcome.ok b ∧ a ++ b = [1, 2, 3])) :=
  ⟨⟨by decide, by decide⟩,
    c8_take_drop_concatenation ([1, 2, 3] : List Nat) 2 (by decide) (by decide)⟩

/-- C6, amended: List.At, List.Slice and Sequence.At panic exactly on the
claimed invalid bounds and the panic payload is the IndexOutOfBoundsError
sentinel, while valid bounds return normally.  Sequence.Slice has no
explicit check: with capacity = length it panics exactly on invalid bounds,
but with a Go runtime slice bounds fault whose payload is never the
IndexOutOfBoundsError sentinel; its valid bounds also return normally. -/
theorem c6_amended_bounds_checks {T : Type} [Inhabited T]
    (l : List T) (i start stop : Int) :
    (listAtGo l i = Outcome.panicked (GoPanic.sentinel GoError.indexOutOfBounds)
      ↔ (i < 0 ∨ (l.length : Int) ≤ i)) ∧
    (¬(i < 0 ∨ (l.length : Int) ≤ i) →
      listAtGo l i = Outcome.ok (l.getD i.toNat default)) ∧
    (seqAtGo l i = Outcome.panicked (GoPanic.sentinel GoError.indexOutOfBounds)
      ↔ (i < 0 ∨ (l.length : Int) ≤ i)) ∧
    (¬(i < 0 ∨ (l.length : Int) ≤ i) →
      seqAtGo l i = Outcome.ok (l.getD i.toNat default)) ∧
    (listSliceGo l start stop = Outcome.panicked (GoPanic.sentinel GoError.indexOutOfBounds)
      ↔ (start < 0 ∨ (l.length : Int) < stop ∨ stop < start)) ∧
    (¬(start < 0 ∨ (l.length : Int) < stop ∨ stop < start) →
      ∃ xs, listSliceGo l start stop = Outcome.ok xs) ∧
    (seqSliceGo l start stop = Outcome.panicked GoPanic.runtime
      ↔ ¬(0 ≤ start ∧ start ≤ stop ∧ stop ≤ (l.length : Int))) ∧
    (∀ e : GoError, seqSliceGo l start stop ≠ Outcome.panicked (GoPanic.sentinel e)) ∧
    ((0 ≤ start ∧ start ≤ stop ∧ stop ≤ (l.length : Int)) →
      ∃ xs, seqSliceGo l start stop = Outcome.ok xs) := by
  refine ⟨?_, ?_, ?_, ?_, ?_, ?_, ?_, ?_, ?_⟩
  · rw [listAtGo]; split_ifs with h
    · simp [h]
    · simp [h]
  · intro h; rw [listAtGo, if_neg h]
  · rw [seqAtGo]; split_ifs with h
    · simp [h]
    · simp [h]
  · intro h; rw [seqAtGo, if_neg h]
  · rw [listSliceGo]; split_ifs with h
    · simp [h]
    · simp [h]
  · intro h; exact ⟨_, by rw [listSliceGo, if_neg h]⟩
  · rw [seqSliceGo]; split_ifs with h
    · simp [h]
    · simp [h]
  · intro e; rw [seqSliceGo]; split_ifs with h
    · simp
    · simp
  · intro h; exact ⟨_, by rw [seqSliceGo, if_pos h]⟩

/-- Witness for c6_amended_bounds_checks at l = [5, 6], i = 1, start = 0,
stop = 2: the valid bound hypotheses of the conditional conjuncts hold. -/
theorem c6_amended_witness :
    (¬((1 : Int) < 0 ∨ (([5, 6] : List Nat).length : Int) ≤ 1) ∧
      listAtGo ([5, 6] : List Nat) 1 = Outcome.ok (([5, 6] : List Nat).getD
        (1 : Int).toNat default)) ∧
    ((0 : Int) ≤ 0 ∧ (0 : Int) ≤ 2 ∧ (2 : Int) ≤ (([5, 6] : List Nat).length : Int)) ∧
    (∃ xs, seqSliceGo ([5, 6] : List Nat) 0 2 = Outcome.ok xs) := by
  refine ⟨⟨by decide, ?_⟩, ⟨by decide, by decide, by decide⟩, ?_⟩
  · exact (c6_amended_bounds_checks ([5, 6] : List Nat) 1 0 2).2.1 (by decide)
  · exact (c6_amended_bounds_checks ([5, 6] : List Nat) 1 0 2).2.2.2.2.2.2.2.2
      ⟨by decide, by decide, by decide⟩

/-- Loop of collection.MaxBy: acc carries (maxElement, maxValue); the pair
is replaced when f v is strictly greater than maxValue. -/
def maxByLoop {T K : Type} [LinearOrder K] (f : T → K) : List T → T × K → T × K
  | [], acc => acc
  | v :: rest, acc =>
    if f v > acc.2 then maxByLoop f rest (v, f v) else maxByLoop f rest acc

/-- Loop of collection.MinBy: the pair is replaced when f v is strictly
smaller than minValue. -/
def minByLoop {T K : Type} [LinearOrder K] (f : T → K) : List T → T × K → T × K
  | [], acc => acc
  | v :: rest, acc =>
    if f v < acc.2 then minByLoop f rest (v, f v) else minByLoop f rest acc

/-- collection.MaxBy in the variant seeded with s.At(0)
(pkg/collection/ordered_collection.go lines 868-881): EmptyCollectionError
on an empty collection, otherwise scan all values starting from the first
element. -/
def maxByAtGo {T K : Type} [LinearOrder K] (s : List T) (f : T → K) : Outcome T :=
  match s with
  | [] => Outcome.errored GoError.emptyCollection
  | h :: t => Outcome.ok (maxByLoop f (h :: t) (h, f h)).1

/-- collection.MinBy in the variant seeded with s.At(0)
(pkg/collection/ordered_collection.go lines 894-907). -/
def minByAtGo {T K : Type} [LinearOrder K] (s : List T) (f : T → K) : Outcome T :=
  match s with
  | [] => Outcome.errored GoError.emptyCollection
  | h :: t => Outcome.ok (minByLoop f (h :: t) (h, f h)).1

/-- collection.MaxBy in the variant seeded with s.Random()
(pkg/collection/ordered_collection.go lines 389-402): r models the
rand.Intn draw of the random pick, which indexes a live element. -/
def maxByRandomGo {T K : Type} [Inhabited T] [LinearOrder K]
    (s : List T) (f : T → K) (r : Nat) : Outcome T :=
  match s with
  | [] => Outcome.errored GoError.emptyCollection
  | h :: t =>
    let seed := (h :: t).getD (r % (h :: t).length) default
    Outcome.ok (maxByLoop f (h :: t) (seed, f seed)).1

/-- Running best of the MaxBy scan, keeping only the element: the first
element of the remaining input strictly exceeding the current best wins. -/
def firstMaxL {T K : Type} [LinearOrder K] (f : T → K) : List T → T → T
  | [], m => m
  | v :: rest, m => if f v > f m then firstMaxL f rest v else firstMaxL f rest m

/-- Running best of the MinBy scan, keeping only the element. -/
def firstMinL {T K : Type} [LinearOrder K] (f : T → K) : List T → T → T
  | [], m => m
  | v :: rest, m => if f v < f m then firstMinL f rest v else firstMinL f rest m

/-- The stored maxValue always equals f of the stored maxElement, so the
loop is determined by its element component. -/
theorem maxByLoop_eq_firstMaxL {T K : Type} [LinearOrder K] (f : T → K) :
    ∀ (l : List T) (m : T),
      maxByLoop f l (m, f m) = (firstMaxL f l m, f (firstMaxL f l m)) := by
  intro l
  induction l with
  | nil => intro m; rfl
  | cons v rest ih =>
    intro m
    by_cases h : f v > f m
    · simp only [maxByLoop, firstMaxL, if_pos h]
      exact ih v
    · simp only [maxByLoop, firstMaxL, if_neg h]
      exact ih m

/-- The stored minValue always equals f of the stored minElement. -/
theorem minByLoop_eq_firstMinL {T K : Type} [LinearOrder K] (f : T → K) :
    ∀ (l : List T) (m : T),
      minByLoop f l (m, f m) = (firstMinL f l m, f (firstMinL f l m)) := by
  intro l
  induction l with
  | nil => intro m; rfl
  | cons v rest ih =>
    intro m
    by_cases h : f v < f m
    · simp only [minByLoop, firstMinL, if_pos h]
      exact ih v
    · simp only [minByLoop, firstMinL, if_neg h]
      exact ih m

/-- e is the first element of s attaining the maximal f value: e occurs in
s, every f value is at most f e, and everything before that occurrence has
a strictly smaller f value. -/
def IsFirstMaxBy {T K : Type} [LinearOrder K] (f : T → K) (s : List T) (e : T) : Prop :=
  ∃ l1 l2, s = l1 ++ e :: l2 ∧ (∀ v ∈ s, f v ≤ f e) ∧ ∀ v ∈ l1, f v < f e

/-- e is the first element of s attaining the minimal f value. -/
def IsFirstMinBy {T K : Type} [LinearOrder K] (f : T → K) (s : List T) (e : T) : Prop :=
  ∃ l1 l2, s = l1 ++ e :: l2 ∧ (∀ v ∈ s, f e ≤ f v) ∧ ∀ v ∈ l1, f e < f v

/-- Scanning l from the seed m yields the first maximal element of m :: l. -/
theorem firstMaxL_isFirst {T K : Type} [LinearOrder K] (f : T → K) :
    ∀ (l : List T) (m : T), IsFirstMaxBy f (m :: l) (firstMaxL f l m) := by
  intro l
  induction l with
  | nil =>
    intro m
    exact ⟨[], [], rfl, by simp [firstMaxL], by simp⟩
  | cons v rest ih =>
    intro m
    by_cases h : f v > f m
    · simp only [firstMaxL, if_pos h]
      obtain ⟨l1, l2, heq, hmax, hlt⟩ := ih v
      have hve : f v ≤ f (firstMaxL f rest v) := hmax v (by simp)
      refine ⟨m :: l1, l2, by rw [List.cons_append, ← heq], ?_, ?_⟩
      · intro w hw
        rcases List.mem_cons.mp hw with hwm | hw2
        · subst hwm; exact le_of_lt (lt_of_lt_of_le h hve)
        · exact hmax w hw2
      · intro w hw
        rcases List.mem_cons.mp hw with hwm | hw2
        · subst hwm; exact lt_of_lt_of_le h hve
        · exact hlt w hw2
    · have hvm : f v ≤ f m := le_of_not_lt h
      simp only [firstMaxL, if_neg h]
      obtain ⟨l1, l2, heq, hmax, hlt⟩ := ih m
      cases l1 with
      | nil =>
        rw [List.nil_append] at heq
        injection heq with he hrest
        refine ⟨[], v :: rest, by rw [List.nil_append, ← he], ?_, by simp⟩
        intro w hw
        rcases List.mem_cons.mp hw with hwm | hw2
        · subst hwm; exact le_of_eq (congrArg f he)
        · rcases List.mem_cons.mp hw2 with hwv | hw3
          · subst hwv; exact hvm.trans (le_of_eq (congrArg f he))
          · exact hmax w (List.mem_cons_of_mem m hw3)
      | cons m' l1' =>
        rw [List.cons_append] at heq
        injection heq with he hrest
        have hmfirst : f m < f (firstMaxL f rest m) := by
          have := hlt m' (by simp)
          rwa [← he] at this
        refine ⟨m :: v :: l1', l2, ?_, ?_, ?_⟩
        · rw [List.cons_append, List.cons_append, ← hrest]
        · intro w hw
          rcases List.mem_cons.mp hw with hwm | hw2
          · subst hwm; exact le_of_lt hmfirst
          · rcases List.mem_cons.mp hw2 with hwv | hw3
            · subst hwv; exact hvm.trans (le_of_lt hmfirst)
            · exact hmax w (List.mem_cons_of_mem m hw3)
        · intro w hw
          rcases List.mem_cons.mp hw with hwm | hw2
          · subst hwm; exact hmfirst
          · rcases List.mem_cons.mp hw2 with hwv | hw3
            · subst hwv; exact lt_of_le_of_lt hvm hmfirst
            · exact hlt w (List.mem_cons_of_mem m' hw3)

/-- Scanning l from the seed m yields the first minimal element of m :: l. -/
theorem firstMinL_isFirst {T K : Type} [LinearOrder K] (f : T → K) :
    ∀ (l : List T) (m : T), IsFirstMinBy f (m :: l) (firstMinL f l m) := by
  intro l
  induction l with
  | nil =>
    intro m
    exact ⟨[], [], rfl, by simp [firstMinL], by simp⟩
  | cons v rest ih =>
    intro m
    by_cases h : f v < f m
    · simp only [firstMinL, if_pos h]
      obtain ⟨l1, l2, heq, hmin, hgt⟩ := ih v
      have hve : f (firstMinL f rest v) ≤ f v := hmin v (by simp)
      refine ⟨m :: l1, l2, by rw [List.cons_append, ← heq], ?_, ?_⟩
      · intro w hw
        rcases List.mem_cons.mp hw with hwm | hw2
        · subst hwm; exact le_of_lt (lt_of_le_of_lt hve h)
        · exact hmin w hw2
      · intro w hw
        rcases List.mem_cons.mp hw with hwm | hw2
        · subst hwm; exact lt_of_le_of_lt hve h
        · exact hgt w hw2
    · have hvm : f m ≤ f v := le_of_not_lt h
      simp only [firstMinL, if_neg h]
      obtain ⟨l1, l2, heq, hmin, hgt⟩ := ih m
      cases l1 with
      | nil =>
        rw [List.nil_append] at heq
        injection heq with he hrest
        refine ⟨[], v :: rest, by rw [List.nil_append, ← he], ?_, by simp⟩
        intro w hw
        rcases List.mem_cons.mp hw with hwm | hw2
        · subst hwm; exact le_of_eq (congrArg f he).symm
        · rcases List.mem_cons.mp hw2 with hwv | hw3
          · subst hwv; exact (le_of_eq (congrArg f he).symm).trans hvm
          · exact hmin w (List.mem_cons_of_mem m hw3)
      | cons m' l1' =>
        rw [List.cons_append] at heq
        injection heq with he hrest
        have hmfirst : f (firstMinL f rest m) < f m := by
          have := hgt m' (by simp)
          rwa [← he] at this
        refine ⟨m :: v :: l1', l2, ?_, ?_, ?_⟩
        · rw [List.cons_append, List.cons_append, ← hrest]
        · intro w hw
          rcases List.mem_cons.mp hw with hwm | hw2
          · subst hwm; exact le_of_lt hmfirst
          · rcases List.mem_cons.mp hw2 with hwv | hw3
            · subst hwv; exact (le_of_lt hmfirst).trans hvm
            · exact hmin w (List.mem_cons_of_mem m hw3)
        · intro w hw
          rcases List.mem_cons.mp hw with hwm | hw2
          · subst hwm; exact hmfirst
          · rcases List.mem_cons.mp hw2 with hwv | hw3
            · subst hwv; exact lt_of_lt_of_le hmfirst hvm
            · exact hgt w (List.mem_cons_of_mem m' hw3)

/-- The At(0) seeded MaxBy scan returns the first maximal element: scanning
the whole list with the head as seed equals scanning the tail with the head
as seed, because the head never strictly exceeds itself. -/
theorem maxByAtGo_isFirst {T K : Type} [LinearOrder K] (s : List T) (f : T → K)
    (e : T) (h : maxByAtGo s f = Outcome.ok e) : IsFirstMaxBy f s e := by
  match s with
  | [] => exact absurd h (by rw [maxByAtGo]; intro hc; cases hc)
  | hd :: t =>
    rw [maxByAtGo] at h
    have heq : (maxByLoop f (hd :: t) (hd, f hd)).1 = firstMaxL f t hd := by
      rw [maxByLoop_eq_firstMaxL]
      show firstMaxL f (hd :: t) hd = firstMaxL f t hd
      rw [firstMaxL, if_neg (lt_irrefl (f hd))]
    rw [heq] at h
    cases h
    exact firstMaxL_isFirst f t hd

/-- The At(0) seeded MinBy scan returns the first minimal element. -/
theorem minByAtGo_isFirst {T K : Type} [LinearOrder K] (s : List T) (f : T → K)
    (e : T) (h : minByAtGo s f = Outcome.ok e) : IsFirstMinBy f s e := by
  match s with
  | [] => exact absurd h (by rw [minByAtGo]; intro hc; cases hc)
  | hd :: t =>
    rw [minByAtGo] at h
    have heq : (minByLoop f (hd :: t) (hd, f hd)).1 = firstMinL f t hd := by
      rw [minByLoop_eq_firstMinL]
      show firstMinL f (hd :: t) hd = firstMinL f t hd
      rw [firstMinL, if_neg (lt_irrefl (f hd))]
    rw [heq] at h
    cases h
    exact firstMinL_isFirst f t hd

/-- C5, amended: MaxBy and MinBy fail with EmptyCollectionError exactly on
an empty collection and otherwise return an element with the extreme f
value.  The variants seeded with s.At(0) (pkg/collection lines 868-881 and
894-907) return the FIRST such element in iteration order; the variant
seeded with s.Random() (lines 389-402) returns an element with the maximal
f value, but when several elements tie for it the random initial pick wins,
not necessarily the first one. -/
theorem c5_amended_maxby_minby {T K : Type} [Inhabited T] [LinearOrder K]
    (s : List T) (f : T → K) :
    (maxByAtGo s f = Outcome.errored GoError.emptyCollection ↔ s = []) ∧
    (minByAtGo s f = Outcome.errored GoError.emptyCollection ↔ s = []) ∧
    (∀ r, maxByRandomGo s f r = Outcome.errored GoError.emptyCollection ↔ s = []) ∧
    (∀ e, maxByAtGo s f = Outcome.ok e → IsFirstMaxBy f s e) ∧
    (∀ e, minByAtGo s f = Outcome.ok e → IsFirstMinBy f s e) ∧
    (∀ r e, maxByRandomGo s f r = Outcome.ok e → e ∈ s ∧ ∀ v ∈ s, f v ≤ f e) := by
  refine ⟨?_, ?_, ?_, fun e => maxByAtGo_isFirst s f e,
    fun e => minByAtGo_isFirst s f e, ?_⟩
  · match s with
    | [] => simp [maxByAtGo]
    | hd :: t => simp [maxByAtGo]
  · match s with
    | [] => simp [minByAtGo]
    | hd :: t => simp [minByAtGo]
  · intro r
    match s with
    | [] => simp [maxByRandomGo]
    | hd :: t => simp [maxByRandomGo]
  · intro r e h
    match s, h with
    | hd :: t, h =>
      rw [maxByRandomGo] at h
      have hlen : r % (hd :: t).length < (hd :: t).length :=
        Nat.mod_lt _ (by simp)
      have hseedmem : (hd :: t).getD (r % (hd :: t).length) default ∈ hd :: t := by
        rw [List.getD_eq_getElem (hd :: t) default hlen]
        exact List.getElem_mem hlen
      set seed := (hd :: t).getD (r % (hd :: t).length) default with hseed
      rw [maxByLoop_eq_firstMaxL] at h
      cases h
      obtain ⟨l1, l2, heq, hmax, _⟩ := firstMaxL_isFirst f (hd :: t) seed
      have hemem : firstMaxL f (hd :: t) seed ∈ seed :: hd :: t := by
        rw [heq]
        simp
      constructor
      · rcases List.mem_cons.mp hemem with hes | hes
        · rw [hes]; exact hseedmem
        · exact hes
      · intro v hv
        exact hmax v (List.mem_cons_of_mem seed hv)

/-- Witness for c5_amended_maxby_minby's conditional parts at s = [3, 5, 5],
f the identity: MaxBy returns 5 and it is the first maximal element. -/
theorem c5_amended_witness :
    maxByAtGo ([3, 5, 5] : List Nat) (fun x => x) = Outcome.ok 5 ∧
    IsFirstMaxBy (fun x : Nat => x) ([3, 5, 5] : List Nat) 5 := by
  have h : maxByAtGo ([3, 5, 5] : List Nat) (fun x => x) = Outcome.ok 5 := by decide
  exact ⟨h, (c5_amended_maxby_minby ([3, 5, 5] : List Nat) (fun x => x)).2.2.2.1 5 h⟩

/-- C5, counterexample: with the Random() seeded MaxBy (pkg/collection
lines 389-402), the constant function on [0, 1] ties every element for the
maximum; when the random pick draws index 1 the result is 1, although the
first element with the maximal f value is 0. -/
theorem c5_random_seeded_maxby_breaks_ties_randomly :
    maxByRandomGo ([0, 1] : List Nat) (fun _ => (0 : Nat)) 1 = Outcome.ok 1 ∧
    IsFirstMaxBy (fun _ : Nat => (0 : Nat)) ([0, 1] : List Nat) 0 ∧
    (1 : Nat) ≠ 0 := by
  refine ⟨by decide, ⟨[], [1], rfl, ?_, by simp⟩, by decide⟩
  intro v _
  exact le_rfl

/-- Store of collection cells: a collection variable is an address into the
store and the cell at that address holds the element sequence the
collection iterates.  Constructors (New, NewSet, Clone) allocate a fresh
cell at the end; method calls that mutate a collection write its cell. -/
abbrev CStore (T : Type) := List (List T)

/-- Read the cell of a collection. -/
def readCell {T : Type} (σ : CStore T) (a : Nat) : List T := σ.getD a []

/-- Overwrite the cell of a collection. -/
def writeCell {T : Type} (σ : CStore T) (a : Nat) (xs : List T) : CStore T := σ.set a xs

/-- Allocate a fresh collection holding xs; returns the new store and the
fresh address. -/
def allocCell {T : Type} (σ : CStore T) (xs : List T) : CStore T × Nat :=
  (σ ++ [xs], σ.length)

/-- Writing one cell leaves every other cell unchanged. -/
theorem readCell_writeCell_ne {T : Type} (σ : CStore T) (r a : Nat) (xs : List T)
    (h : a ≠ r) : readCell (writeCell σ r xs) a = readCell σ a := by
  rw [readCell, writeCell, readCell, List.getD, List.getD,
    List.get?_eq_getElem?, List.get?_eq_getElem?,
    List.getElem?_set_ne (Ne.symm h)]

/-- Allocation leaves every existing cell unchanged. -/
theorem readCell_alloc {T : Type} (σ : CStore T) (xs : List T) (a : Nat)
    (h : a < σ.length) : readCell (σ ++ [xs]) a = readCell σ a := by
  rw [readCell, readCell, List.getD, List.getD,
    List.get?_eq_getElem?, List.get?_eq_getElem?,
    List.getElem?_append, if_pos h]

/-- Loop of the generic Diff (pkg/collection/ordered_collection.go lines
219-228, Diff = FilterNot with a containment closure over s2): a source
element is added to the result cell r when no element of s2, read from the
live store, equals it; addFn is the result backend's Add acting on its
cell. -/
def diffLoopStore {T : Type} [DecidableEq T] (addFn : List T → T → List T)
    (s2 r : Nat) : List T → CStore T → CStore T
  | [], σ => σ
  | v :: rest, σ =>
    if (readCell σ s2).any (fun t => decide (t = v)) then
      diffLoopStore addFn s2 r rest σ
    else diffLoopStore addFn s2 r rest (writeCell σ r (addFn (readCell σ r) v))

/-- collection.Diff over the store: result := s1.New(), then filter s1's
elements through the not-contained-in-s2 test. -/
def diffStore {T : Type} [DecidableEq T] (addFn : List T → T → List T)
    (σ : CStore T) (s1 s2 : Nat) : CStore T × Nat :=
  let al := allocCell σ []
  (diffLoopStore addFn s2 al.2 (readCell al.1 s1) al.1, al.2)

/-- Loop of the generic Intersect (pkg/collection/ordered_collection.go
lines 807-816): keep the source elements contained in s2. -/
def interLoopStore {T : Type} [DecidableEq T] (addFn : List T → T → List T)
    (s2 r : Nat) : List T → CStore T → CStore T
  | [], σ => σ
  | v :: rest, σ =>
    if (readCell σ s2).any (fun t => decide (t = v)) then
      interLoopStore addFn s2 r rest (writeCell σ r (addFn (readCell σ r) v))
    else interLoopStore addFn s2 r rest σ

/-- collection.Intersect over the store: result := s1.New(), then filter
s1's elements through the contained-in-s2 test. -/
def interStore {T : Type} [DecidableEq T] (addFn : List T → T → List T)
    (σ : CStore T) (s1 s2 : Nat) : CStore T × Nat :=
  let al := allocCell σ []
  (interLoopStore addFn s2 al.2 (readCell al.1 s1) al.1, al.2)

/-- Loop of the generic Distinct (pkg/collection/ordered_collection.go
lines 240-255): an element is added to the freshly allocated result s2
when no element already in s2 (read live, it grows during the loop)
matches it under the equality function f. -/
def distinctLoopStore {T : Type} (addFn : List T → T → List T) (f : T → T → Bool)
    (r : Nat) : List T → CStore T → CStore T
  | [], σ => σ
  | v :: rest, σ =>
    if (readCell σ r).any (fun v2 => f v v2) then distinctLoopStore addFn f r rest σ
    else distinctLoopStore addFn f r rest (writeCell σ r (addFn (readCell σ r) v))

/-- collection.Distinct over the store. -/
def distinctStore {T : Type} (addFn : List T → T → List T) (f : T → T → Bool)
    (σ : CStore T) (s : Nat) : CStore T × Nat :=
  let al := allocCell σ []
  (distinctLoopStore addFn f al.2 (readCell al.1 s) al.1, al.2)

/-- Set.Add on the cell contents: a map insert keeps one copy of each key
and leaves the iteration order of existing keys unchanged. -/
def setAddCell {T : Type} [DecidableEq T] (cell : List T) (v : T) : List T :=
  if cell.any (fun t => decide (t = v)) then cell else cell ++ [v]

/-- delete(m, k) on the cell contents. -/
def setDeleteCell {T : Type} [DecidableEq T] (cell : List T) (v : T) : List T :=
  cell.filter (fun t => decide (¬ t = v))

/-- Loop of Set.Diff (part_004 lines 120-122): delete every element of the
other set from the clone at r. -/
def setDeleteLoopStore {T : Type} [DecidableEq T] (r : Nat) :
    List T → CStore T → CStore T
  | [], σ => σ
  | k :: rest, σ =>
    setDeleteLoopStore r rest (writeCell σ r (setDeleteCell (readCell σ r) k))

/-- Loop of Set.Union (part_004 lines 194-196): add every element of the
other set to the clone at r. -/
def setAddLoopStore {T : Type} [DecidableEq T] (r : Nat) :
    List T → CStore T → CStore T
  | [], σ => σ
  | k :: rest, σ =>
    setAddLoopStore r rest (writeCell σ r (setAddCell (readCell σ r) k))

/-- Set.Diff (part_004 lines 118-124): newSet := s.Clone() allocates a
fresh cell with s's contents; the loop deletes the other set's elements
from the clone only. -/
def setDiffStore {T : Type} [DecidableEq T] (σ : CStore T) (s other : Nat) :
    CStore T × Nat :=
  let al := allocCell σ (readCell σ s)
  (setDeleteLoopStore al.2 (readCell al.1 other) al.1, al.2)

/-- Set.Union (part_004 lines 192-198): clone the receiver, add every
element of the other set to the clone. -/
def setUnionStore {T : Type} [DecidableEq T] (σ : CStore T) (s other : Nat) :
    CStore T × Nat :=
  let al := allocCell σ (readCell σ s)
  (setAddLoopStore al.2 (readCell al.1 other) al.1, al.2)

/-- Loop of Set.Intersection (part_004 lines 172-176): iterate the other
set and add to the fresh result the keys the receiver contains. -/
def setInterLoopStore {T : Type} [DecidableEq T] (s r : Nat) :
    List T → CStore T → CStore T
  | [], σ => σ
  | k :: rest, σ =>
    if (readCell σ s).any (fun t => decide (t = k)) then
      setInterLoopStore s r rest (writeCell σ r (setAddCell (readCell σ r) k))
    else setInterLoopStore s r rest σ

/-- Set.Intersection (part_004 lines 170-178): result := NewSet() is a
fresh empty cell. -/
def setInterStore {T : Type} [DecidableEq T] (σ : CStore T) (s other : Nat) :
    CStore T × Nat :=
  let al := allocCell σ []
  (setInterLoopStore s al.2 (readCell al.1 other) al.1, al.2)

/-- The Diff loop only ever writes the result cell. -/
theorem diffLoopStore_frame {T : Type} [DecidableEq T] (addFn : List T → T → List T)
    (s2 r : Nat) : ∀ (vs : List T) (σ : CStore T) (a : Nat), a ≠ r →
      readCell (diffLoopStore addFn s2 r vs σ) a = readCell σ a := by
  intro vs
  induction vs with
  | nil => intro σ a h; rfl
  | cons v rest ih =>
    intro σ a h
    rw [diffLoopStore]
    split_ifs
    · exact ih σ a h
    · rw [ih _ a h, readCell_writeCell_ne σ r a _ h]

/-- The Intersect loop only ever writes the result cell. -/
theorem interLoopStore_frame {T : Type} [DecidableEq T] (addFn : List T → T → List T)
    (s2 r : Nat) : ∀ (vs : List T) (σ : CStore T) (a : Nat), a ≠ r →
      readCell (interLoopStore addFn s2 r vs σ) a = readCell σ a := by
  intro vs
  induction vs with
  | nil => intro σ a h; rfl
  | cons v rest ih =>
    intro σ a h
    rw [interLoopStore]
    split_ifs
    · rw [ih _ a h, readCell_writeCell_ne σ r a _ h]
    · exact ih σ a h

/-- The Distinct loop only ever writes the result cell. -/
theorem distinctLoopStore_frame {T : Type} (addFn : List T → T → List T)
    (f : T → T → Bool) (r : Nat) : ∀ (vs : List T) (σ : CStore T) (a : Nat), a ≠ r →
      readCell (distinctLoopStore addFn f r vs σ) a = readCell σ a := by
  intro vs
  induction vs with
  | nil => intro σ a h; rfl
  | cons v rest ih =>
    intro σ a h
    rw [distinctLoopStore]
    split_ifs
    · exact ih σ a h
    · rw [ih _ a h, readCell_writeCell_ne σ r a _ h]

/-- The Set.Diff delete loop only ever writes the clone cell. -/
theorem setDeleteLoopStore_frame {T : Type} [DecidableEq T] (r : Nat) :
    ∀ (vs : List T) (σ : CStore T) (a : Nat), a ≠ r →
      readCell (setDeleteLoopStore r vs σ) a = readCell σ a := by
  intro vs
  induction vs with
  | nil => intro σ a h; rfl
  | cons k rest ih =>
    intro σ a h
    rw [setDeleteLoopStore, ih _ a h, readCell_writeCell_ne σ r a _ h]

/-- The Set.Union add loop only ever writes the clone cell. -/
theorem setAddLoopStore_frame {T : Type} [DecidableEq T] (r : Nat) :
    ∀ (vs : List T) (σ : CStore T) (a : Nat), a ≠ r →
      readCell (setAddLoopStore r vs σ) a = readCell σ a := by
  intro vs
  induction vs with
  | nil => intro σ a h; rfl
  | cons k rest ih =>
    intro σ a h
    rw [setAddLoopStore, ih _ a h, readCell_writeCell_ne σ r a _ h]

/-- The Set.Intersection loop only ever writes the result cell. -/
theorem setInterLoopStore_frame {T : Type} [DecidableEq T] (s r : Nat) :
    ∀ (vs : List T) (σ : CStore T) (a : Nat), a ≠ r →
      readCell (setInterLoopStore s r vs σ) a = readCell σ a := by
  intro vs
  induction vs with
  | nil => intro σ a h; rfl
  | cons k rest ih =>
    intro σ a h
    rw [setInterLoopStore]
    split_ifs
    · rw [ih _ a h, readCell_writeCell_ne σ r a _ h]
    · exact ih σ a h

/-- C7: the eager generic Diff, Intersect and Distinct and the Set methods
Diff, Intersection and Union never mutate their inputs: after any of them,
every collection that existed before the call (in particular every
argument) still holds exactly the elements it held before, and the result
lives at a freshly allocated address distinct from all of them. -/
theorem c7_diff_intersect_distinct_leave_inputs_unchanged {T : Type} [DecidableEq T]
    (addFn : List T → T → List T) (f : T → T → Bool)
    (σ : CStore T) (s1 s2 : Nat) (a : Nat) (ha : a < σ.length) :
    (readCell (diffStore addFn σ s1 s2).1 a = readCell σ a ∧
      (diffStore addFn σ s1 s2).2 = σ.length) ∧
    (readCell (interStore addFn σ s1 s2).1 a = readCell σ a ∧
      (interStore addFn σ s1 s2).2 = σ.length) ∧
    (readCell (distinctStore addFn f σ s1).1 a = readCell σ a ∧
      (distinctStore addFn f σ s1).2 = σ.length) ∧
    (readCell (setDiffStore σ s1 s2).1 a = readCell σ a ∧
      (setDiffStore σ s1 s2).2 = σ.length) ∧
    (readCell (setUnionStore σ s1 s2).1 a = readCell σ a ∧
      (setUnionStore σ s1 s2).2 = σ.length) ∧
    (readCell (setInterStore σ s1 s2).1 a = readCell σ a ∧
      (setInterStore σ s1 s2).2 = σ.length) := by
  have hne : a ≠ σ.length := by omega
  refine ⟨⟨?_, rfl⟩, ⟨?_, rfl⟩, ⟨?_, rfl⟩, ⟨?_, rfl⟩, ⟨?_, rfl⟩, ⟨?_, rfl⟩⟩
  · simp only [diffStore, allocCell]
    rw [diffLoopStore_frame addFn s2 σ.length _ _ a hne, readCell_alloc σ [] a ha]
  · simp only [interStore, allocCell]
    rw [interLoopStore_frame addFn s2 σ.length _ _ a hne, readCell_alloc σ [] a ha]
  · simp only [distinctStore, allocCell]
    rw [distinctLoopStore_frame addFn f σ.length _ _ a hne, readCell_alloc σ [] a ha]
  · simp only [setDiffStore, allocCell]
    rw [setDeleteLoopStore_frame σ.length _ _ a hne, readCell_alloc σ _ a ha]
  · simp only [setUnionStore, allocCell]
    rw [setAddLoopStore_frame σ.length _ _ a hne, readCell_alloc σ _ a ha]
  · simp only [setInterStore, allocCell]
    rw [setInterLoopStore_frame s1 σ.length _ _ a hne, readCell_alloc σ [] a ha]

/-- Witness for c7 on a concrete two cell store holding [1, 2] and [2, 3]:
the first input cell is untouched by Set.Diff and the result is fresh. -/
theorem c7_witness :
    (0 : Nat) < ([[1, 2], [2, 3]] : CStore Nat).length ∧
    readCell (setDiffStore ([[1, 2], [2, 3]] : CStore Nat) 0 1).1 0 =
      readCell ([[1, 2], [2, 3]] : CStore Nat) 0 ∧
    (setDiffStore ([[1, 2], [2, 3]] : CStore Nat) 0 1).2 =
      ([[1, 2], [2, 3]] : CStore Nat).length :=
  ⟨by decide,
    (c7_diff_intersect_distinct_leave_inputs_unchanged
      (fun cell v => cell ++ [v]) (fun x y => decide (x = y))
      ([[1, 2], [2, 3]] : CStore Nat) 0 1 0 (by decide)).2.2.2.1.1,
    (c7_diff_intersect_distinct_leave_inputs_unchanged
      (fun cell v => cell ++ [v]) (fun x y => decide (x = y))
      ([[1, 2], [2, 3]] : CStore Nat) 0 1 0 (by decide)).2.2.2.1.2⟩

/-- list.List.Random (part_028 lines 78-83) at the value level: the zero
value of T when the list is empty (no panic), otherwise At applied to the
rand.Intn draw, modelled by the oracle r reduced modulo the size. -/
def listRandomGo {T : Type} [Inhabited T] (l : List T) (r : Nat) : Outcome T :=
  if l.length = 0 then Outcome.ok default
  else listAtGo l ((r % l.length : Nat) : Int)

/-- Sequence.Random (sequence.go lines 56-61): the zero value on an empty
sequence, otherwise direct indexing at the rand.Intn draw. -/
def seqRandomGo {T : Type} [Inhabited T] (s : List T) (r : Nat) : Outcome T :=
  if s.length = 0 then Outcome.ok default
  else Outcome.ok (s.getD (r % s.length) default)

/-- Set.Random (part_004 lines 47-52): return the first element the map
iteration yields; when the loop body never runs because the set is empty,
panic with the EmptyCollectionError sentinel. -/
def setRandomGo {T : Type} (elems : List T) : Outcome T :=
  match elems with
  | [] => Outcome.panicked (GoPanic.sentinel GoError.emptyCollection)
  | v :: _ => Outcome.ok v

/-- C9: on an empty receiver, List.Random and Sequence.Random return the
zero value of the element type without panicking, whatever the random
oracle; only Set.Random panics, with the EmptyCollectionError sentinel. -/
theorem c9_random_empty_behavior {T : Type} [Inhabited T] (r : Nat) :
    listRandomGo ([] : List T) r = Outcome.ok default ∧
    seqRandomGo ([] : List T) r = Outcome.ok default ∧
    setRandomGo ([] : List T) =
      Outcome.panicked (GoPanic.sentinel GoError.emptyCollection) :=
  ⟨rfl, rfl, rfl⟩

/-- Lookup in a Go map, modelled as an association list of (key, group)
entries kept in key insertion order. -/
def mlookup {K T : Type} [DecidableEq K] : List (K × List T) → K → Option (List T)
  | [], _ => none
  | (k', g) :: rest, k => if k = k' then some g else mlookup rest k

/-- The assignment m[k].Append(v): append v to the group stored under k,
leaving every other entry alone (no entry changes when k is absent). -/
def mappendAt {K T : Type} [DecidableEq K] :
    List (K × List T) → K → T → List (K × List T)
  | [], _, _ => []
  | (k', g) :: rest, k, v =>
    if k = k' then (k', g ++ [v]) :: rest else (k', g) :: mappendAt rest k v

/-- Body of the GroupBy loop (pkg/collection/ordered_collection.go lines
751-757): when the key is absent, bind it to a fresh empty collection
(m[k] = s.New()); then append the element to its group. -/
def groupStep {K T : Type} [DecidableEq K] (m : List (K × List T)) (k : K) (v : T) :
    List (K × List T) :=
  mappendAt (if (mlookup m k).isNone then m ++ [(k, [])] else m) k v

/-- collection.GroupBy (pkg/collection/ordered_collection.go lines
749-759): fold the grouping step over the source elements in iteration
order, starting from the empty map. -/
def groupByGo {K T : Type} [DecidableEq K] (f : T → K) (s : List T) :
    List (K × List T) :=
  s.foldl (fun m v => groupStep m (f v) v) []

/-- Appending under k updates exactly the group of k. -/
theorem mlookup_mappendAt_self {K T : Type} [DecidableEq K] (k : K) (v : T) :
    ∀ m : List (K × List T),
      mlookup (mappendAt m k v) k = Option.map (fun g => g ++ [v]) (mlookup m k) := by
  intro m
  induction m with
  | nil => rfl
  | cons e rest ih =>
    match e with
    | (k', g) =>
      by_cases h : k = k'
      · rw [mappendAt, if_pos h, mlookup, if_pos h, mlookup, if_pos h]
        rfl
      · rw [mappendAt, if_neg h, mlookup, if_neg h, mlookup, if_neg h, ih]

/-- Appending under k leaves the groups of other keys unchanged. -/
theorem mlookup_mappendAt_ne {K T : Type} [DecidableEq K] (k k2 : K) (v : T)
    (hk : k2 ≠ k) : ∀ m : List (K × List T),
      mlookup (mappendAt m k v) k2 = mlookup m k2 := by
  intro m
  induction m with
  | nil => rfl
  | cons e rest ih =>
    match e with
    | (k', g) =>
      by_cases h : k = k'
      · have h2 : ¬ k2 = k' := fun hc => hk (hc.trans h.symm)
        rw [mappendAt, if_pos h, mlookup, if_neg h2, mlookup, if_neg h2]
      · by_cases h2 : k2 = k'
        · rw [mappendAt, if_neg h, mlookup, if_pos h2, mlookup, if_pos h2]
        · rw [mappendAt, if_neg h, mlookup, if_neg h2, mlookup, if_neg h2, ih]

/-- Looking a key up in an extended map first consults the original part. -/
theorem mlookup_append {K T : Type} [DecidableEq K] (k : K) (m2 : List (K × List T)) :
    ∀ m : List (K × List T),
      mlookup (m ++ m2) k =
        match mlookup m k with
        | some g => some g
        | none => mlookup m2 k := by
  intro m
  induction m with
  | nil => rfl
  | cons e rest ih =>
    match e with
    | (k', g) =>
      by_cases h : k = k'
      · rw [List.cons_append, mlookup, if_pos h, mlookup, if_pos h]
      · rw [List.cons_append, mlookup, if_neg h, mlookup, if_neg h, ih]

/-- Running the GroupBy loop from any intermediate map appends, to the
group of each key, exactly the remaining elements mapping to it, creating
the group on its first member. -/
theorem groupByLoop_lookup {K T : Type} [DecidableEq K] [DecidableEq T]
    (f : T → K) (k : K) :
    ∀ (l : List T) (m : List (K × List T)),
      mlookup (List.foldl (fun m v => groupStep m (f v) v) m l) k =
        match mlookup m k with
        | some g => some (g ++ l.filter (fun v => decide (f v = k)))
        | none =>
          if l.filter (fun v => decide (f v = k)) = [] then none
          else some (l.filter (fun v => decide (f v = k))) := by
  intro l
  induction l with
  | nil =>
    intro m
    match hm : mlookup m k with
    | some g => simp [List.foldl, hm]
    | none => simp [List.foldl, hm]
  | cons v l ih =>
    intro m
    rw [List.foldl_cons, ih (groupStep m (f v) v)]
    by_cases hfv : f v = k
    · have hfilter :
          (v :: l).filter (fun v => decide (f v = k)) =
            v :: l.filter (fun v => decide (f v = k)) := by
        rw [List.filter_cons_of_pos (by simp [hfv])]
      match hm : mlookup m k with
      | some g =>
        have hstep : mlookup (groupStep m (f v) v) k = some (g ++ [v]) := by
          rw [groupStep, hfv, hm]
          simp only [Option.isNone_some, Bool.false_eq_true, if_false]
          rw [mlookup_mappendAt_self, hm]
          rfl
        rw [hstep]
        simp [hfilter, List.append_assoc]
      | none =>
        have hstep : mlookup (groupStep m (f v) v) k = some [v] := by
          rw [groupStep, hfv, hm]
          simp only [Option.isNone_none, if_true]
          rw [mlookup_mappendAt_self, mlookup_append, hm]
          rw [mlookup, if_pos rfl]
          rfl
        rw [hstep]
        simp [hfilter]
    · have hfilter :
          (v :: l).filter (fun v => decide (f v = k)) =
            l.filter (fun v => decide (f v = k)) := by
        rw [List.filter_cons_of_neg (by simp [hfv])]
      have hstep : mlookup (groupStep m (f v) v) k = mlookup m k := by
        rw [groupStep, mlookup_mappendAt_ne (f v) k v (fun hc => hfv hc.symm)]
        by_cases hm : (mlookup m (f v)).isNone
        · rw [if_pos hm, mlookup_append]
          match hm2 : mlookup m k with
          | some g => simp [hm2]
          | none =>
            show mlookup [(f v, [])] k = none
            rw [mlookup, if_neg (fun hc => hfv hc.symm)]
            rfl
        · rw [if_neg hm]
      rw [hstep, hfilter]

/-- C10: every group in the map returned by GroupBy(s, f) holds exactly
the elements of s whose key is that group's key, in the order they occur
in s; keys with no member are absent. -/
theorem c10_groupby_groups_exact {K T : Type} [DecidableEq K] [DecidableEq T]
    (f : T → K) (s : List T) (k : K) :
    mlookup (groupByGo f s) k =
      if s.filter (fun v => decide (f v = k)) = [] then none
      else some (s.filter (fun v => decide (f v = k))) := by
  rw [groupByGo, groupByLoop_lookup f k s []]
  rfl

end Gophers
